import Mathlib

/-!
Verification development for the telexy update-streaming core.

The Go source is shallowly embedded: Go byte strings become lists of byte
values (`ByteStr`), JSON documents become the inductive `Json`, channels and
goroutine scheduling become explicit event lists and per-iteration oracles,
and `int` becomes `Int` (no arithmetic here ever approaches overflow).
Each definition mirrors one function of the repository; doc comments name
the embedded source function.
-/

set_option autoImplicit false

namespace Telexy

/-- Go strings are byte slices (`len`, `s[0]` are byte operations); we model
them as lists of byte values. -/
abbrev ByteStr := List Nat

/-- Byte list of an ASCII string literal: one byte per character. All wire
names used by the code are ASCII, where UTF-8 bytes and characters coincide. -/
def asciiBytes (s : String) : ByteStr := s.data.map Char.toNat

/-- UpdateType enum from internal/api (models.go): the closed set of
Telegram update kinds. -/
inductive UpdateType where
  | message
  | editedMessage
  | channelPost
  | editedChannelPost
  | inlineQuery
  | chosenInlineResult
  | callbackQuery
  | shippingQuery
  | preCheckoutQuery
  | poll
  | pollAnswer
  | myChatMember
  | chatMember
  | chatJoinRequest
  deriving DecidableEq, Repr

/-- parseUpdateType from internal/api: two-level dispatch on the first byte
of the key and its byte length, rejecting anything shorter than
`len("poll") = 4`. `some t` models the Go result `(t, true)`; `none` models
`(0, false)`. Byte values: 109 = m, 101 = e, 99 = c, 105 = i, 115 = s,
112 = p. -/
def parseUpdateType (s : ByteStr) : Option UpdateType :=
  if s.length < 4 then none
  else
    let c := s.headD 0
    if c = 109 then
      if s.length = 7 then some .message
      else if s.length = 14 then some .myChatMember
      else none
    else if c = 101 then
      if s.length = 14 then some .editedMessage
      else if s.length = 19 then some .editedChannelPost
      else none
    else if c = 99 then
      if s.length = 12 then some .channelPost
      else if s.length = 20 then some .chosenInlineResult
      else if s.length = 14 then some .callbackQuery
      else if s.length = 11 then some .chatMember
      else if s.length = 17 then some .chatJoinRequest
      else none
    else if c = 105 then some .inlineQuery
    else if c = 115 then some .shippingQuery
    else if c = 112 then
      if s.length = 18 then some .preCheckoutQuery
      else if s.length = 4 then some .poll
      else if s.length = 11 then some .pollAnswer
      else none
    else none

/-- Canonical update-type names and tags from the spec's data model, in the
order the spec lists them. -/
def canonicalUpdateTypes : List (String × UpdateType) :=
  [ ("message", .message)
  , ("edited_message", .editedMessage)
  , ("channel_post", .channelPost)
  , ("edited_channel_post", .editedChannelPost)
  , ("inline_query", .inlineQuery)
  , ("chosen_inline_result", .chosenInlineResult)
  , ("callback_query", .callbackQuery)
  , ("shipping_query", .shippingQuery)
  , ("pre_checkout_query", .preCheckoutQuery)
  , ("poll", .poll)
  , ("poll_answer", .pollAnswer)
  , ("my_chat_member", .myChatMember)
  , ("chat_member", .chatMember)
  , ("chat_join_request", .chatJoinRequest)
  ]

/-- Table of the (first byte, byte length) pairs of the canonical names,
derived from the table of names. -/
def canonicalPairs : List (Nat × Nat × UpdateType) :=
  canonicalUpdateTypes.map fun p => ((asciiBytes p.1).headD 0, (asciiBytes p.1).length, p.2)

/-- First entry of a pair table matching a given (first byte, length) pair. -/
def pairLookupAux : List (Nat × Nat × UpdateType) → Nat → Nat → Option UpdateType
  | [], _, _ => none
  | q :: rest, c, n =>
    if c = q.1 ∧ n = q.2.1 then some q.2.2 else pairLookupAux rest c n

/-- Lookup in the table of (first byte, byte length) pairs of the canonical
names: the classification the spec claims the parser implements. -/
def canonicalPairLookup (c : Nat) (n : Nat) : Option UpdateType :=
  pairLookupAux canonicalPairs c n

theorem canonicalPairs_eval :
    canonicalPairs =
      [ (109, 7, .message), (101, 14, .editedMessage), (99, 12, .channelPost)
      , (101, 19, .editedChannelPost), (105, 12, .inlineQuery)
      , (99, 20, .chosenInlineResult), (99, 14, .callbackQuery)
      , (115, 14, .shippingQuery), (112, 18, .preCheckoutQuery)
      , (112, 4, .poll), (112, 11, .pollAnswer), (109, 14, .myChatMember)
      , (99, 11, .chatMember), (99, 17, .chatJoinRequest) ] := by
  decide

theorem canonicalPairLookup_eval (c n : Nat) :
    canonicalPairLookup c n =
      if c = 109 ∧ n = 7 then some .message
      else if c = 101 ∧ n = 14 then some .editedMessage
      else if c = 99 ∧ n = 12 then some .channelPost
      else if c = 101 ∧ n = 19 then some .editedChannelPost
      else if c = 105 ∧ n = 12 then some .inlineQuery
      else if c = 99 ∧ n = 20 then some .chosenInlineResult
      else if c = 99 ∧ n = 14 then some .callbackQuery
      else if c = 115 ∧ n = 14 then some .shippingQuery
      else if c = 112 ∧ n = 18 then some .preCheckoutQuery
      else if c = 112 ∧ n = 4 then some .poll
      else if c = 112 ∧ n = 11 then some .pollAnswer
      else if c = 109 ∧ n = 14 then some .myChatMember
      else if c = 99 ∧ n = 11 then some .chatMember
      else if c = 99 ∧ n = 17 then some .chatJoinRequest
      else none := by
  show pairLookupAux canonicalPairs c n = _
  rw [canonicalPairs_eval]
  simp only [pairLookupAux]

/-- C4 counterexample: the claim says `ok = false` for any string whose
(first byte, length) pair is not among the pairs of the canonical names, yet
the code accepts the 4-byte string "izzz" as inline_query: the pair
(105, 4) matches no canonical name. -/
theorem c4_parseUpdateType_counterexample :
    parseUpdateType (asciiBytes "izzz") = some UpdateType.inlineQuery ∧
    (canonicalUpdateTypes.all fun p =>
      !(((asciiBytes p.1).head? == some 105) && ((asciiBytes p.1).length == 4))) = true := by
  decide

/-- C4 (amended): parseUpdateType maps each canonical name to its tag with
`ok = true`, rejects every byte string shorter than 4, and for longer
strings classifies by the (first byte, length) pair of the canonical table,
except that a first byte of i (105) or s (115) is accepted as inline_query
resp. shipping_query regardless of the length. -/
theorem c4_parseUpdateType_amended :
    (∀ p ∈ canonicalUpdateTypes, parseUpdateType (asciiBytes p.1) = some p.2) ∧
    (∀ s : ByteStr, s.length < 4 → parseUpdateType s = none) ∧
    (∀ s : ByteStr, 4 ≤ s.length →
      parseUpdateType s =
        if s.headD 0 = 105 then some UpdateType.inlineQuery
        else if s.headD 0 = 115 then some UpdateType.shippingQuery
        else canonicalPairLookup (s.headD 0) s.length) := by
  refine ⟨by decide, ?_, ?_⟩
  · intro s h
    simp [parseUpdateType, h]
  · intro s hs
    rw [canonicalPairLookup_eval]
    unfold parseUpdateType
    rw [if_neg (by omega : ¬ s.length < 4)]
    simp only [ite_and]
    by_cases h1 : s.headD 0 = 109 <;>
      by_cases h2 : s.headD 0 = 101 <;>
        by_cases h3 : s.headD 0 = 99 <;>
          by_cases h4 : s.headD 0 = 105 <;>
            by_cases h5 : s.headD 0 = 115 <;>
              by_cases h6 : s.headD 0 = 112 <;>
                simp_all

/-- C4 witness: the amended classifier claim applied at the concrete string
"izzz" of length 4. -/
theorem c4_parseUpdateType_amended_witness :
    4 ≤ (asciiBytes "izzz").length ∧
    parseUpdateType (asciiBytes "izzz") = some UpdateType.inlineQuery := by
  refine ⟨by decide, ?_⟩
  have h := c4_parseUpdateType_amended.2.2 (asciiBytes "izzz") (by decide)
  simpa using h

/-! Retry layer (internal/retry/retry.go) and the long-poll driver's error
classification (internal/streams/longpoll.go). -/

/-- Errors of the pipeline, as Go error values: the leaf kinds named by the
spec's error taxonomy, plus the two wrappers that occur in the code:
`wrapped` models a fmt.Errorf("...: %w", err) layer, `recoverableMark`
models the retry package's recoverError marker. -/
inductive GoError where
  | transportFailure (status : Int)
  | parseFailure
  | protocolFailure
  | consumerFailure
  | apiFailure (description : String) (errorCode : Int)
  | deadlineExceeded
  | contextCanceled
  | wrapped (inner : GoError)
  | recoverableMark (inner : GoError)
  deriving DecidableEq, Repr

/-- errors.Is(err, context.DeadlineExceeded): walks the Unwrap chain (both
fmt.Errorf wrapping and the recoverError marker unwrap by one level). -/
def errorsIsDeadline : GoError → Bool
  | .deadlineExceeded => true
  | .wrapped e => errorsIsDeadline e
  | .recoverableMark e => errorsIsDeadline e
  | _ => false

/-- errors.As(err, *recoverError): walks the Unwrap chain looking for the
retry marker. -/
def errorsAsRecoverable : GoError → Bool
  | .recoverableMark _ => true
  | .wrapped e => errorsAsRecoverable e
  | _ => false

/-- Recoverability of one attempt result: retry.Recover returns err (ending
the loop) unless errors.As finds the recoverError marker; a nil error is
returned immediately. -/
def isRecoverableO : Option GoError → Bool
  | none => false
  | some e => errorsAsRecoverable e

/-- retry.Recover: the loop calls f, returns the first result that is not
marked recoverable, and otherwise asks the scheduler for a delay and sleeps.
The list holds the successive results of f; the output is the list of
requested sleep delays together with the returned result (none when the
supplied attempts were exhausted while still retrying). -/
def recoverRun {σ : Type} (sched : σ → Nat × σ) :
    σ → List (Option GoError) → List Nat × Option (Option GoError)
  | _, [] => ([], none)
  | st, e :: es =>
    if isRecoverableO e then
      let d := sched st
      let r := recoverRun sched d.2 es
      (d.1 :: r.1, r.2)
    else ([], some e)

/-- DefaultBackoffMinDelay = 50ms, in milliseconds. -/
def backoffMinDelayMs : Nat := 50

/-- DefaultBackoffMaxDelay = 10min, in milliseconds. -/
def backoffMaxDelayMs : Nat := 600000

/-- DefaultBackoffFactor = 2. -/
def backoffFactor : Nat := 2

/-- The delay scheduler closure of retry.Backoff over its (delay, next)
state: delay, next = next, next*factor; next is then capped at the max;
the returned delay is the new value of delay. -/
def backoffSched (st : Nat × Nat) : Nat × (Nat × Nat) :=
  let delay := st.2
  let next0 := st.2 * backoffFactor
  let next := if next0 > backoffMaxDelayMs then backoffMaxDelayMs else next0
  (delay, (delay, next))

/-- retry.Backoff: Recover with the backoff scheduler, starting from
delay = 0, next = min delay. -/
def backoff (errs : List (Option GoError)) : List Nat × Option (Option GoError) :=
  recoverRun backoffSched (0, backoffMinDelayMs) errs

/-- The sequence of delays the backoff scheduler emits from a given `next`
state, written as the scheduler computes it. -/
def capSeq : Nat → Nat → List Nat
  | _, 0 => []
  | next, k + 1 =>
    next :: capSeq (if next * backoffFactor > backoffMaxDelayMs then backoffMaxDelayMs
                    else next * backoffFactor) k

theorem recoverRun_backoff_sleeps (errs : List (Option GoError)) :
    ∀ st : Nat × Nat, (∀ e ∈ errs, isRecoverableO e = true) →
      (recoverRun backoffSched st errs).1 = capSeq st.2 errs.length := by
  induction errs with
  | nil => intro st _; rfl
  | cons e es ih =>
    intro st h
    rw [recoverRun, if_pos (h e (by simp))]
    simp only [List.length_cons, capSeq, backoffSched]
    rw [ih _ (fun x hx => h x (by simp [hx]))]

theorem capSeq_closed (k : Nat) :
    ∀ j : Nat, capSeq (min (backoffMinDelayMs * 2 ^ j) backoffMaxDelayMs) k
      = (List.range k).map fun i => min (backoffMinDelayMs * 2 ^ (j + i)) backoffMaxDelayMs := by
  induction k with
  | zero => intro j; rfl
  | succ k ih =>
    intro j
    rw [capSeq]
    have h2 : (if min (backoffMinDelayMs * 2 ^ j) backoffMaxDelayMs * backoffFactor > backoffMaxDelayMs
          then backoffMaxDelayMs
          else min (backoffMinDelayMs * 2 ^ j) backoffMaxDelayMs * backoffFactor)
        = min (backoffMinDelayMs * 2 ^ (j + 1)) backoffMaxDelayMs := by
      have hp : backoffMinDelayMs * 2 ^ (j + 1) = backoffMinDelayMs * 2 ^ j * 2 := by ring
      rw [hp]
      simp only [backoffFactor, backoffMinDelayMs, backoffMaxDelayMs]
      generalize (50 : Nat) * 2 ^ j = a
      split_ifs <;> omega
    rw [h2, ih (j + 1)]
    rw [List.range_succ_eq_map]
    simp only [List.map_cons, List.map_map, Nat.add_zero]
    congr 1
    apply List.map_congr_left
    intro i _
    simp only [Function.comp_apply]
    have hj : j + 1 + i = j + (i + 1) := by omega
    rw [hj]

/-- C9: the k-th consecutive recoverable failure (0-indexed here: the i-th
element of the sleep list, i = k-1) makes the backoff retry strategy sleep
min(50ms * 2 ^ i, 10min), so the first retry sleeps 50ms, the delay doubles
with each further consecutive recoverable failure, and is capped at 10min.
Delays are in milliseconds. -/
theorem c9_backoff_delays (errs : List (Option GoError))
    (h : ∀ e ∈ errs, isRecoverableO e = true) :
    (backoff errs).1
      = (List.range errs.length).map fun i =>
          min (backoffMinDelayMs * 2 ^ i) backoffMaxDelayMs := by
  rw [backoff, recoverRun_backoff_sleeps errs (0, backoffMinDelayMs) h]
  have hcs := capSeq_closed errs.length 0
  have h0 : min (backoffMinDelayMs * 2 ^ 0) backoffMaxDelayMs = backoffMinDelayMs := by
    decide
  rw [h0] at hcs
  rw [hcs]
  apply List.map_congr_left
  intro i _
  rw [Nat.zero_add]

/-- C9 witness: three consecutive recoverable failures sleep 50ms, 100ms,
200ms. -/
theorem c9_backoff_delays_witness :
    (∀ e ∈ [some (GoError.recoverableMark .parseFailure),
            some (GoError.recoverableMark (.transportFailure 500)),
            some (GoError.recoverableMark .parseFailure)], isRecoverableO e = true) ∧
    (backoff [some (GoError.recoverableMark .parseFailure),
              some (GoError.recoverableMark (.transportFailure 500)),
              some (GoError.recoverableMark .parseFailure)]).1 = [50, 100, 200] := by
  refine ⟨by decide, ?_⟩
  rw [c9_backoff_delays _ (by decide)]
  decide

/-- Per-attempt error classification inside longPollStreamer.poll: a nil
error, a cancelled outer context, or a deadline-exceeded error ends the
attempt with nil; every other error — whatever its kind — is handed to the
retry layer wrapped with the recoverable marker. ctxCanceled models
ctx.Err() != nil. -/
def pollClassifyAttemptError (ctxCanceled : Bool) : Option GoError → Option GoError
  | none => none
  | some e =>
    if ctxCanceled || errorsIsDeadline e then none
    else some (.recoverableMark e)

/-- C2 counterexample: a local parse failure (context live, not a deadline)
is wrapped with the recoverable marker by the driver, and the retry layer
therefore retries it (sleeping 50ms and moving on to the next attempt)
instead of propagating it unchanged. -/
theorem c2_poll_error_counterexample :
    pollClassifyAttemptError false (some .parseFailure)
        = some (.recoverableMark .parseFailure) ∧
    isRecoverableO (pollClassifyAttemptError false (some .parseFailure)) = true ∧
    recoverRun backoffSched (0, backoffMinDelayMs)
        [pollClassifyAttemptError false (some .parseFailure), none]
      = ([50], some none) := by
  refine ⟨by decide, by decide, by decide⟩

/-- C2 (amended): the retry layer retries exactly the errors wrapped with
the recoverable marker and short-circuits on every other result; however
the driver wraps every non-nil attempt error that is neither a cancellation
nor a deadline — including parse, protocol and consumer failures — with the
recoverable marker, so those errors are retried rather than propagated. -/
theorem c2_poll_error_amended :
    (∀ e : GoError, errorsIsDeadline e = false →
      pollClassifyAttemptError false (some e) = some (.recoverableMark e) ∧
      isRecoverableO (pollClassifyAttemptError false (some e)) = true) ∧
    (∀ (σ : Type) (sched : σ → Nat × σ) (st : σ) (e : Option GoError)
        (es : List (Option GoError)), isRecoverableO e = false →
      recoverRun sched st (e :: es) = ([], some e)) := by
  constructor
  · intro e he
    constructor
    · simp [pollClassifyAttemptError, he]
    · simp [pollClassifyAttemptError, he, isRecoverableO, errorsAsRecoverable]
  · intro σ sched st e es he
    simp [recoverRun, he]

/-- C2 witness: the amended statement applied to a concrete parse failure:
the driver marks it recoverable, and an unmarked parse failure returned to
the retry layer short-circuits the loop. -/
theorem c2_poll_error_amended_witness :
    (errorsIsDeadline GoError.parseFailure = false ∧
      pollClassifyAttemptError false (some .parseFailure)
        = some (.recoverableMark .parseFailure)) ∧
    (isRecoverableO (some GoError.parseFailure) = false ∧
      recoverRun backoffSched (0, backoffMinDelayMs) [some GoError.parseFailure]
        = ([], some (some GoError.parseFailure))) := by
  refine ⟨⟨by decide, (c2_poll_error_amended.1 .parseFailure (by decide)).1⟩,
          ⟨by decide, c2_poll_error_amended.2 (Nat × Nat) backoffSched
            (0, backoffMinDelayMs) (some .parseFailure) [] (by decide)⟩⟩

/-! Long-poll driver offset discipline (longPollStreamer.poll and .Stream,
internal/streams/longpoll.go). -/

/-- One update as seen by the per-update consumer inside
longPollStreamer.poll: its update_id, and whether the two-way select handed
it off on the updates channel (the alternative being ctx.Done firing
first); the flag is the oracle for the scheduler's choice. -/
structure PollDelivery where
  id : Int
  delivered : Bool

/-- The newOffset variable of longPollStreamer.poll across one poll call:
for each update the consumer sees, newOffset := ui.ID + 1 exactly when the
select sends the update on the stream; otherwise the offset is left
untouched. -/
def pollNewOffset (offset : Int) (batch : List PollDelivery) : Int :=
  batch.foldl (fun off u => if u.delivered then u.id + 1 else off) offset

/-- Offset threading of the loop in longPollStreamer.Stream: each successful
poll's newOffset becomes the next request's offset. -/
def streamOffsets (offset : Int) (polls : List (List PollDelivery)) : Int :=
  polls.foldl pollNewOffset offset

/-- Ids handed off on the updates channel by one poll, in order. -/
def deliveredIdsOf (batch : List PollDelivery) : List Int :=
  (batch.filter fun u => u.delivered).map fun u => u.id

/-- Ids handed off on the updates channel across a sequence of polls, in
delivery order. -/
def deliveredIds (polls : List (List PollDelivery)) : List Int :=
  deliveredIdsOf polls.flatten

/-- Folding an offset through a list of delivered ids: each delivery sets
the offset to that id + 1. -/
def lastPlus (offset : Int) : List Int → Int
  | [] => offset
  | i :: is => lastPlus (i + 1) is

theorem pollNewOffset_eq_lastPlus (batch : List PollDelivery) :
    ∀ offset : Int, pollNewOffset offset batch = lastPlus offset (deliveredIdsOf batch) := by
  induction batch with
  | nil => intro offset; rfl
  | cons u us ih =>
    intro offset
    by_cases h : u.delivered
    · simp only [pollNewOffset, deliveredIdsOf, List.foldl_cons, List.filter_cons, h, if_pos]
      simpa [pollNewOffset, deliveredIdsOf, lastPlus, h] using ih (u.id + 1)
    · simp only [pollNewOffset, deliveredIdsOf, List.foldl_cons, List.filter_cons, h]
      simpa [pollNewOffset, deliveredIdsOf, lastPlus, h] using ih offset

theorem lastPlus_append (l1 l2 : List Int) :
    ∀ offset : Int, lastPlus offset (l1 ++ l2) = lastPlus (lastPlus offset l1) l2 := by
  induction l1 with
  | nil => intro offset; rfl
  | cons i is ih => intro offset; simp [lastPlus, ih]

theorem streamOffsets_eq_lastPlus (polls : List (List PollDelivery)) :
    ∀ offset : Int, streamOffsets offset polls = lastPlus offset (deliveredIds polls) := by
  induction polls with
  | nil => intro offset; rfl
  | cons b bs ih =>
    intro offset
    have hjoin : deliveredIds (b :: bs) = deliveredIdsOf b ++ deliveredIds bs := by
      simp [deliveredIds, deliveredIdsOf, List.flatten]
    rw [streamOffsets, List.foldl_cons, hjoin, lastPlus_append,
      ← pollNewOffset_eq_lastPlus b offset]
    exact ih (pollNewOffset offset b)

theorem lastPlus_getLast (l : List Int) :
    ∀ (offset : Int) (h : l ≠ []), lastPlus offset l = l.getLast h + 1 := by
  induction l with
  | nil => intro _ h; exact absurd rfl h
  | cons i is ih =>
    intro offset h
    cases is with
    | nil => rfl
    | cons j js =>
      rw [lastPlus, ih (i + 1) (by simp)]
      congr 1

theorem sorted_le_getLast (l : List Int) :
    ∀ (h : l ≠ []), l.Pairwise (· ≤ ·) → ∀ x ∈ l, x ≤ l.getLast h := by
  induction l with
  | nil => intro h; exact absurd rfl h
  | cons i is ih =>
    intro h hp x hx
    rcases List.pairwise_cons.mp hp with ⟨hi, his⟩
    rcases List.mem_cons.mp hx with rfl | hx2
    · cases is with
      | nil => simp
      | cons j js =>
        rw [List.getLast_cons (by simp)]
        exact hi _ (List.getLast_mem (by simp))
    · cases is with
      | nil => exact absurd hx2 (List.not_mem_nil x)
      | cons j js =>
        rw [List.getLast_cons (by simp)]
        exact ih (by simp) his x hx2

/-- C1: offsets advance only on delivery. Provided the ids delivered across
the polls are nondecreasing in delivery order (the data model's id
monotonicity within a session), the offset after any number of polls is
unchanged when nothing was delivered and equals 1 + max(ids delivered so
far) otherwise, so a batch cut short by cancellation resumes from the last
successfully delivered id + 1. -/
theorem c1_longpoll_offset (offset : Int) (polls : List (List PollDelivery))
    (hmono : (deliveredIds polls).Pairwise (· ≤ ·)) :
    (deliveredIds polls = [] → streamOffsets offset polls = offset) ∧
    (∀ m, m ∈ deliveredIds polls → (∀ x ∈ deliveredIds polls, x ≤ m) →
      streamOffsets offset polls = m + 1) := by
  constructor
  · intro hnil
    rw [streamOffsets_eq_lastPlus, hnil]
    rfl
  · intro m hm hub
    have hne : deliveredIds polls ≠ [] := by
      intro hc; rw [hc] at hm; exact absurd hm (List.not_mem_nil m)
    rw [streamOffsets_eq_lastPlus, lastPlus_getLast _ _ hne]
    have h1 : (deliveredIds polls).getLast hne ≤ m :=
      hub _ (List.getLast_mem hne)
    have h2 : m ≤ (deliveredIds polls).getLast hne :=
      sorted_le_getLast _ hne hmono m hm
    omega

/-- C1 witness: two polls; the first delivers ids 1 and 3 and has id 5
interrupted by cancellation (not delivered), the second delivers id 5; the
resulting offset is 6, and an all-undelivered run leaves the offset at 0. -/
theorem c1_longpoll_offset_witness :
    (deliveredIds [[⟨1, true⟩, ⟨3, true⟩, ⟨5, false⟩], [⟨5, true⟩]]).Pairwise (· ≤ ·) ∧
    streamOffsets 0 [[⟨1, true⟩, ⟨3, true⟩, ⟨5, false⟩], [⟨5, true⟩]] = 6 ∧
    (deliveredIds [[⟨7, false⟩]]).Pairwise (· ≤ ·) ∧
    streamOffsets 0 [[⟨7, false⟩]] = 0 := by
  refine ⟨by decide, ?_, by decide, ?_⟩
  · simpa using (c1_longpoll_offset 0
      [[⟨1, true⟩, ⟨3, true⟩, ⟨5, false⟩], [⟨5, true⟩]] (by decide)).2
      5 (by decide) (by decide)
  · exact (c1_longpoll_offset 0 [[⟨7, false⟩]] (by decide)).1 (by decide)

/-! Stream-goroutine termination behaviour (longPollStreamer.Stream). -/

/-- Events observable on the two channels returned by
longPollStreamer.Stream. -/
inductive StreamEvent where
  | publishErr (e : Option GoError)
  | closeErrChannel
  | closeUpdatesChannel
  deriving DecidableEq, Repr

/-- The environment of one iteration of the Stream loop: whether ctx.Err()
is non-nil at the top of the iteration, and the error the poll call returns
if reached. -/
structure LoopStep where
  ctxCanceled : Bool
  pollErr : Option GoError

/-- Event trace of the goroutine body of longPollStreamer.Stream over a
schedule of loop iterations. On a cancelled context it publishes nil on the
error channel and returns; on a poll error it publishes that error and
returns; the deferred closes then run in LIFO order (error channel first,
then the updates channel). An exhausted schedule means the loop is still
running (no events yet). -/
def streamLoopEvents : List LoopStep → List StreamEvent
  | [] => []
  | step :: rest =>
    if step.ctxCanceled then
      [.publishErr none, .closeErrChannel, .closeUpdatesChannel]
    else
      match step.pollErr with
      | some e => [.publishErr (some e), .closeErrChannel, .closeUpdatesChannel]
      | none => streamLoopEvents rest

/-- C8: when the context is cancelled after any number of error-free
iterations, the background loop publishes nil on the error channel (the
cancellation is not reported as a failure) and then closes both the error
channel and the updates channel. -/
theorem c8_cancellation_trace (pre : List LoopStep) (step : LoopStep)
    (rest : List LoopStep)
    (hpre : ∀ s ∈ pre, s.ctxCanceled = false ∧ s.pollErr = none)
    (hc : step.ctxCanceled = true) :
    streamLoopEvents (pre ++ step :: rest)
      = [.publishErr none, .closeErrChannel, .closeUpdatesChannel] := by
  induction pre with
  | nil => simp [streamLoopEvents, hc]
  | cons p ps ih =>
    have hp := hpre p (by simp)
    rw [List.cons_append, streamLoopEvents]
    simp only [hp.1, hp.2, if_neg (by simp : ¬ False)]
    exact ih fun s hs => hpre s (by simp [hs])

/-- C8 witness: one clean iteration followed by a cancelled one. -/
theorem c8_cancellation_trace_witness :
    (∀ s ∈ [(⟨false, none⟩ : LoopStep)], s.ctxCanceled = false ∧ s.pollErr = none) ∧
    (⟨true, none⟩ : LoopStep).ctxCanceled = true ∧
    streamLoopEvents [⟨false, none⟩, ⟨true, none⟩]
      = [.publishErr none, .closeErrChannel, .closeUpdatesChannel] := by
  refine ⟨by simp, rfl, ?_⟩
  exact c8_cancellation_trace [⟨false, none⟩] ⟨true, none⟩ []
    (by simp) rfl

/-! Update multiplexer (internal/streams/mux.go). -/

/-- SubscriptionOpts from mux.go. Command strings are modeled as rune
lists; update and command sets keep their list form (Go map lookup becomes
list membership). -/
structure SubscriptionOpts where
  all : Bool
  updates : List UpdateType
  commands : List (List Char)

/-- The fields of subscriberDesc that Subscribe/Unsubscribe and match act
on: the filter options, whether the done channel has been closed, and
whether the subscriber's stream has been closed. -/
structure SubscriberState where
  all : Bool
  updates : List UpdateType
  commands : List (List Char)
  done : Bool
  streamClosed : Bool
  deriving DecidableEq, Repr

/-- strings.IndexFunc (and IndexByte, via a singleton predicate) over the
runes of a string: index of the first rune satisfying p, none for Go's -1. -/
def indexFunc (p : Char → Bool) : List Char → Option Nat
  | [] => none
  | a :: t => if p a then some 0 else (indexFunc p t).map (· + 1)

/-- Mux.match from mux.go. isSpace abstracts unicode.IsSpace; text stands
for update.Content.Get("text").ToString() of the message payload. The
command token is the text cut at the first whitespace rune
(strings.IndexFunc) and then at the first at-sign (strings.IndexByte);
matching uses the subscriber's command set. -/
def muxMatch (isSpace : Char → Bool) (sub : SubscriberState)
    (utype : UpdateType) (text : List Char) : Bool :=
  if sub.all || sub.updates.contains utype then true
  else if utype = UpdateType.message then
    match text with
    | [] => false
    | ch :: _ =>
      if ch ≠ '/' then false
      else
        let cmd := match indexFunc isSpace text with
          | some i => text.take i
          | none => text
        let cmd2 := match indexFunc (fun c => c == '@') cmd with
          | some i => cmd.take i
          | none => cmd
        sub.commands.contains cmd2
  else false

/-- The command token as the spec words it: characters up to the first
whitespace rune, then up to the first at-sign. -/
def commandToken (isSpace : Char → Bool) (text : List Char) : List Char :=
  (text.takeWhile fun c => !isSpace c).takeWhile fun c => !(c == '@')

theorem take_indexFunc_eq_takeWhile (p : Char → Bool) (l : List Char) :
    (match indexFunc p l with
      | some i => l.take i
      | none => l) = l.takeWhile fun c => !p c := by
  induction l with
  | nil => rfl
  | cons a t ih =>
    by_cases h : p a
    · simp [indexFunc, h, List.takeWhile_cons]
    · cases e : indexFunc p t with
      | none =>
        have ih2 : t = List.takeWhile (fun c => !p c) t := by simpa [e] using ih
        simp [indexFunc, h, e, List.takeWhile_cons, ← ih2]
      | some i =>
        have ih2 : List.take i t = List.takeWhile (fun c => !p c) t := by simpa [e] using ih
        simp [indexFunc, h, e, List.takeWhile_cons, ← ih2]

/-- C6: the mux match function returns true exactly when the subscriber
subscribed to everything, or the update's type is in its type set, or the
update is a message whose text starts with a slash and whose command token
(text cut at the first whitespace, then at the first at-sign) is in the
subscriber's command set; in every other case (including a message text not
starting with a slash) it returns false. -/
theorem c6_mux_match (isSpace : Char → Bool) (sub : SubscriberState)
    (utype : UpdateType) (text : List Char) :
    muxMatch isSpace sub utype text = true ↔
      (sub.all = true ∨ utype ∈ sub.updates ∨
        (utype = UpdateType.message ∧ text.head? = some '/' ∧
          commandToken isSpace text ∈ sub.commands)) := by
  unfold muxMatch
  simp only [take_indexFunc_eq_takeWhile]
  by_cases hall : sub.all
  · simp [hall]
  · have hmem : sub.updates.contains utype = true ↔ utype ∈ sub.updates := by simp
    by_cases hin : sub.updates.contains utype
    · simp [hall, hin, hmem.mp hin]
    · have hnotin : ¬ utype ∈ sub.updates := fun hc => hin (hmem.mpr hc)
      by_cases hmsg : utype = UpdateType.message
      · subst hmsg
        cases text with
        | nil => simp [hall, hin, hnotin]
        | cons ch rest =>
          by_cases hch : ch = '/'
          · subst hch
            simp [hall, hin, hnotin, commandToken, List.takeWhile_cons]
          · simp [hall, hin, hnotin, hch]
      · simp [hall, hin, hnotin, hmsg]

/-- Mux state acted on by Subscribe, Unsubscribe and the shutdown sweeper:
the closed flag, the sub-id counter and the subs map. Map keys are the `any`
values used by the Go code: a generated uint64 (`some n`) or nil (`none`). -/
structure MuxState where
  closed : Bool
  subID : Nat
  subs : List (Option Nat × SubscriberState)
  deriving DecidableEq, Repr

/-- Mux state produced by NewMux before any subscription (the zero value of
the Mux struct fields). -/
def newMuxState : MuxState :=
  { closed := false, subID := 0, subs := [] }

/-- The shutdown sweeper goroutine started by NewMux: once all workers have
exited (the input stream is closed) it closes every remaining subscriber's
stream and deletes it from the map. Note that no statement in mux.go ever
stores true to the closed flag. -/
def muxSweep (m : MuxState) : MuxState :=
  { m with subs := [] }

/-- Mux.Subscribe from mux.go: generate the next key, build the descriptor
(the filter lists are consulted only when All is unset), store it, then
check the closed flag: if set, delete the descriptor and return nil key and
nil stream (modeled as a `none` key); otherwise return the key. -/
def muxSubscribe (m : MuxState) (opts : SubscriptionOpts) : MuxState × Option Nat :=
  let key := m.subID + 1
  let desc : SubscriberState :=
    { all := opts.all
    , updates := if opts.all then [] else opts.updates
    , commands := if opts.all then [] else opts.commands
    , done := false
    , streamClosed := false }
  let m1 : MuxState := { m with subID := key, subs := m.subs ++ [(some key, desc)] }
  if m1.closed then
    ({ m1 with subs := m1.subs.filter fun kv => kv.1 != some key }, none)
  else (m1, some key)

/-- Mux.Unsubscribe from mux.go: load the key from the subs map; when a
subscriber is registered under it, close its done channel (closing an
already-closed channel panics, modeled as `.error ()`); when none is, do
nothing. -/
def muxUnsubscribe (m : MuxState) (key : Option Nat) : Except Unit MuxState :=
  match m.subs.find? (fun kv => kv.1 == key) with
  | none => .ok m
  | some kv =>
    if kv.2.done then .error ()
    else .ok { m with subs := m.subs.map fun kv2 =>
        if kv2.1 == key then (kv2.1, { kv2.2 with done := true }) else kv2 }

/-- C7: contrary to Subscribe's own documentation ("If the mux is already
closed, then an invalid key and a nil stream is returned"), the closed flag
is never stored by any code path — in particular the sweeper leaves it
untouched — so Subscribe called after the mux has shut down still returns a
fresh valid key and leaves the new subscriber registered in the map, where
no worker or sweeper will ever close it. -/
theorem c7_subscribe_after_close_bug (opts : SubscriptionOpts) (m : MuxState) :
    (muxSweep m).closed = m.closed ∧
    (muxSweep newMuxState).closed = false ∧
    (muxSubscribe (muxSweep newMuxState) opts).2 = some 1 ∧
    (muxSubscribe (muxSweep newMuxState) opts).1.subs.length = 1 := by
  refine ⟨rfl, rfl, ?_, ?_⟩ <;>
    simp [muxSubscribe, muxSweep, newMuxState]

/-- C10: Unsubscribe with a key under which no subscriber is registered (a
key never handed out, an already-removed key, or the nil key) does not
panic and returns the mux state unchanged. -/
theorem c10_unsubscribe_missing_key (m : MuxState) (key : Option Nat)
    (h : ∀ kv ∈ m.subs, kv.1 ≠ key) :
    muxUnsubscribe m key = .ok m := by
  have hf : m.subs.find? (fun kv => kv.1 == key) = none := by
    rw [List.find?_eq_none]
    intro kv hkv
    simpa using h kv hkv
  rw [muxUnsubscribe, hf]

/-- C10 witness: a mux with one registered subscriber, probed with an
unknown key and with the nil key. -/
theorem c10_unsubscribe_missing_key_witness :
    (∀ kv ∈ [((some 1 : Option Nat),
        (⟨false, [UpdateType.message], [], false, false⟩ : SubscriberState))],
      kv.1 ≠ some 5) ∧
    muxUnsubscribe
        ⟨false, 1, [(some 1, ⟨false, [UpdateType.message], [], false, false⟩)]⟩
        (some 5)
      = .ok ⟨false, 1, [(some 1, ⟨false, [UpdateType.message], [], false, false⟩)]⟩ ∧
    muxUnsubscribe
        ⟨false, 1, [(some 1, ⟨false, [UpdateType.message], [], false, false⟩)]⟩
        none
      = .ok ⟨false, 1, [(some 1, ⟨false, [UpdateType.message], [], false, false⟩)]⟩ := by
  refine ⟨by decide, ?_, ?_⟩
  · exact c10_unsubscribe_missing_key _ (some 5) (by decide)
  · exact c10_unsubscribe_missing_key _ none (by decide)

/-! Response envelope reader and updates-array reader (internal/api,
jsoniter version used by Client.Do). -/

/-- JSON values as the streaming decoder sees them: object keys are byte
strings; numbers are integers (the envelope and update ids only carry
integers; a non-integer where one is expected is a decode fault either
way). -/
inductive Json where
  | null
  | bool (b : Bool)
  | num (n : Int)
  | str (s : String)
  | arr (elems : List Json)
  | obj (fields : List (ByteStr × Json))

/-- The "ok" envelope key. -/
def okKey : ByteStr := asciiBytes "ok"

/-- The "description" envelope key. -/
def descriptionKey : ByteStr := asciiBytes "description"

/-- The "error_code" envelope key. -/
def errorCodeKey : ByteStr := asciiBytes "error_code"

/-- The "result" envelope key. -/
def resultKey : ByteStr := asciiBytes "result"

/-- The Response struct of the api package (ok, description, error_code). -/
structure ApiResponse where
  ok : Bool
  description : String
  errorCode : Int
  deriving DecidableEq, Repr

/-- Outcome of readResponse: an iterator fault, the non-ok ApiError, or a
consumer invocation together with the cursor position the consumer sees —
`some (v, rest)` means positioned at value v with the fields rest still
unread, `none` means positioned at the end of the envelope object. -/
inductive ReadOutcome where
  | parseFailed
  | apiError (description : String) (errorCode : Int)
  | consumed (cursor : Option (Json × List (ByteStr × Json)))

/-- readResponse's scan loop from internal/api (the jsoniter version used by
Client.Do) over the envelope's field list. A key shorter than len("ok") is
skipped by `continue` without its value having been read, which desyncs the
iterator: the next ReadObject call then fails for any value other than
null; modeled as an iterator fault. A key starting with byte r (114) sets
ok to true, stops the scan and leaves the cursor on the value; keys
starting with o (111), d (100), e (101) decode bool/string/int into the
response; any other key's value is skipped. After the loop, a false ok
yields the ApiError; otherwise the consumer runs at the end of the object. -/
def readResponseGo : List (ByteStr × Json) → ApiResponse → ReadOutcome
  | [], resp =>
    if resp.ok then .consumed none
    else .apiError resp.description resp.errorCode
  | (key, v) :: rest, resp =>
    if key.length < 2 then .parseFailed
    else if key.headD 0 = 114 then .consumed (some (v, rest))
    else if key.headD 0 = 111 then
      match v with
      | .bool b => readResponseGo rest { resp with ok := b }
      | _ => .parseFailed
    else if key.headD 0 = 100 then
      match v with
      | .str s => readResponseGo rest { resp with description := s }
      | _ => .parseFailed
    else if key.headD 0 = 101 then
      match v with
      | .num n => readResponseGo rest { resp with errorCode := n }
      | _ => .parseFailed
    else readResponseGo rest resp

/-- readResponse entry: Go declares `var resp Response`, zero-valued. -/
def readResponse (fields : List (ByteStr × Json)) : ReadOutcome :=
  readResponseGo fields { ok := false, description := "", errorCode := 0 }

/-- Json class tests used to state envelope well-formedness. -/
def isBoolJson : Json → Bool
  | .bool _ => true
  | _ => false

/-- String test. -/
def isStrJson : Json → Bool
  | .str _ => true
  | _ => false

/-- Integer test. -/
def isNumJson : Json → Bool
  | .num _ => true
  | _ => false

/-- Envelope field well-formedness per the spec's data model: one of the
four canonical fields carrying its declared type. -/
abbrev FieldWF (kv : ByteStr × Json) : Prop :=
  (kv.1 = okKey ∧ isBoolJson kv.2 = true) ∨
  (kv.1 = descriptionKey ∧ isStrJson kv.2 = true) ∨
  (kv.1 = errorCodeKey ∧ isNumJson kv.2 = true) ∨
  kv.1 = resultKey

/-- Final value of the envelope's ok after scanning fields, starting from b:
the last ok field's boolean wins. -/
def lastOkFrom (b : Bool) (fields : List (ByteStr × Json)) : Bool :=
  fields.foldl (fun acc kv =>
    if kv.1 == okKey then
      match kv.2 with
      | .bool b2 => b2
      | _ => acc
    else acc) b

/-- Final value of the envelope's description after scanning fields. -/
def lastDescriptionFrom (d : String) (fields : List (ByteStr × Json)) : String :=
  fields.foldl (fun acc kv =>
    if kv.1 == descriptionKey then
      match kv.2 with
      | .str s => s
      | _ => acc
    else acc) d

/-- Final value of the envelope's error_code after scanning fields. -/
def lastErrorCodeFrom (c : Int) (fields : List (ByteStr × Json)) : Int :=
  fields.foldl (fun acc kv =>
    if kv.1 == errorCodeKey then
      match kv.2 with
      | .num n => n
      | _ => acc
    else acc) c

theorem readResponseGo_noResult (fields : List (ByteStr × Json)) :
    ∀ resp : ApiResponse, (∀ kv ∈ fields, FieldWF kv) →
      (∀ kv ∈ fields, kv.1 ≠ resultKey) →
      readResponseGo fields resp =
        if lastOkFrom resp.ok fields then .consumed none
        else .apiError (lastDescriptionFrom resp.description fields)
          (lastErrorCodeFrom resp.errorCode fields) := by
  induction fields with
  | nil => intro resp _ _; rfl
  | cons kv rest ih =>
    intro resp hwf hnr
    obtain ⟨key, v⟩ := kv
    rcases hwf (key, v) (List.mem_cons_self _ _) with ⟨hk, hv⟩ | ⟨hk, hv⟩ | ⟨hk, hv⟩ | hk
    · subst hk
      cases v with
      | bool b =>
        show readResponseGo rest { resp with ok := b } = _
        rw [ih _ (fun x hx => hwf x (by simp [hx])) (fun x hx => hnr x (by simp [hx]))]
        rfl
      | null => exact absurd hv (by simp [isBoolJson])
      | num n => exact absurd hv (by simp [isBoolJson])
      | str s => exact absurd hv (by simp [isBoolJson])
      | arr es => exact absurd hv (by simp [isBoolJson])
      | obj fs => exact absurd hv (by simp [isBoolJson])
    · subst hk
      cases v with
      | str s =>
        show readResponseGo rest { resp with description := s } = _
        rw [ih _ (fun x hx => hwf x (by simp [hx])) (fun x hx => hnr x (by simp [hx]))]
        rfl
      | null => exact absurd hv (by simp [isStrJson])
      | bool b => exact absurd hv (by simp [isStrJson])
      | num n => exact absurd hv (by simp [isStrJson])
      | arr es => exact absurd hv (by simp [isStrJson])
      | obj fs => exact absurd hv (by simp [isStrJson])
    · subst hk
      cases v with
      | num n =>
        show readResponseGo rest { resp with errorCode := n } = _
        rw [ih _ (fun x hx => hwf x (by simp [hx])) (fun x hx => hnr x (by simp [hx]))]
        rfl
      | null => exact absurd hv (by simp [isNumJson])
      | bool b => exact absurd hv (by simp [isNumJson])
      | str s => exact absurd hv (by simp [isNumJson])
      | arr es => exact absurd hv (by simp [isNumJson])
      | obj fs => exact absurd hv (by simp [isNumJson])
    · exact absurd hk (hnr _ (List.mem_cons_self _ _))

theorem readResponseGo_result (pre : List (ByteStr × Json)) :
    ∀ (resp : ApiResponse) (v : Json) (post : List (ByteStr × Json)),
      (∀ kv ∈ pre, FieldWF kv) → (∀ kv ∈ pre, kv.1 ≠ resultKey) →
      readResponseGo (pre ++ (resultKey, v) :: post) resp
        = .consumed (some (v, post)) := by
  induction pre with
  | nil => intro resp v post _ _; rfl
  | cons kv rest ih =>
    intro resp v post hwf hnr
    obtain ⟨key, w⟩ := kv
    rcases hwf (key, w) (List.mem_cons_self _ _) with ⟨hk, hv⟩ | ⟨hk, hv⟩ | ⟨hk, hv⟩ | hk
    · subst hk
      cases w with
      | bool b =>
        show readResponseGo (rest ++ (resultKey, v) :: post) { resp with ok := b } = _
        exact ih _ v post (fun x hx => hwf x (by simp [hx])) (fun x hx => hnr x (by simp [hx]))
      | null => exact absurd hv (by simp [isBoolJson])
      | num n => exact absurd hv (by simp [isBoolJson])
      | str s => exact absurd hv (by simp [isBoolJson])
      | arr es => exact absurd hv (by simp [isBoolJson])
      | obj fs => exact absurd hv (by simp [isBoolJson])
    · subst hk
      cases w with
      | str s =>
        show readResponseGo (rest ++ (resultKey, v) :: post) { resp with description := s } = _
        exact ih _ v post (fun x hx => hwf x (by simp [hx])) (fun x hx => hnr x (by simp [hx]))
      | null => exact absurd hv (by simp [isStrJson])
      | bool b => exact absurd hv (by simp [isStrJson])
      | num n => exact absurd hv (by simp [isStrJson])
      | arr es => exact absurd hv (by simp [isStrJson])
      | obj fs => exact absurd hv (by simp [isStrJson])
    · subst hk
      cases w with
      | num n =>
        show readResponseGo (rest ++ (resultKey, v) :: post) { resp with errorCode := n } = _
        exact ih _ v post (fun x hx => hwf x (by simp [hx])) (fun x hx => hnr x (by simp [hx]))
      | null => exact absurd hv (by simp [isNumJson])
      | bool b => exact absurd hv (by simp [isNumJson])
      | str s => exact absurd hv (by simp [isNumJson])
      | arr es => exact absurd hv (by simp [isNumJson])
      | obj fs => exact absurd hv (by simp [isNumJson])
    · exact absurd hk (hnr _ (List.mem_cons_self _ _))

theorem exists_first_result (fields : List (ByteStr × Json)) :
    (¬ ∀ kv ∈ fields, kv.1 ≠ resultKey) →
    ∃ pre v post, fields = pre ++ (resultKey, v) :: post ∧
      ∀ kv ∈ pre, kv.1 ≠ resultKey := by
  induction fields with
  | nil => intro h; exact absurd (by simp) h
  | cons kv rest ih =>
    intro h
    by_cases hk : kv.1 = resultKey
    · refine ⟨[], kv.2, rest, ?_, by simp⟩
      simp [← hk]
    · have h2 : ¬ ∀ x ∈ rest, x.1 ≠ resultKey := by
        intro hall
        exact h (by
          intro x hx
          rcases List.mem_cons.mp hx with rfl | hx2
          · exact hk
          · exact hall x hx2)
      obtain ⟨pre, v, post, heq, hpre⟩ := ih h2
      refine ⟨kv :: pre, v, post, by simp [heq], ?_⟩
      intro x hx
      rcases List.mem_cons.mp hx with rfl | hx2
      · exact hk
      · exact hpre x hx2

/-- Envelope with an unknown two-byte key "rx" sitting between ok and
result: the scan stops there because any key starting with byte r (114) is
taken for result. -/
def c3RogueFields : List (ByteStr × Json) :=
  [(okKey, Json.bool true), (asciiBytes "rx", Json.num 0), (resultKey, Json.num 1)]

/-- C3 counterexample: an input where ok = true is present before result,
yet the consumer's cursor is left at the value of the unknown key "rx"
(the integer 0), not at result's value (the integer 1): any key of length
at least 2 whose first byte is r stops the envelope scan. -/
theorem c3_readResponse_counterexample :
    readResponse c3RogueFields
      = .consumed (some (Json.num 0, [(resultKey, Json.num 1)])) ∧
    Json.num 0 ≠ Json.num 1 := by
  refine ⟨rfl, by simp⟩

/-- C3 (amended): over well-formed envelopes (fields drawn from ok:bool,
description:string, error_code:int and result only), readResponse yields
the ApiError carrying the envelope's final description and error_code
exactly when no result field is present and the final value of ok is
false; every ApiError it returns carries those values; and whenever a
result field is present — in particular when ok = true precedes result and
when result precedes ok — the consumer is invoked with the cursor at the
first result field's value. -/
theorem c3_readResponse_amended (fields : List (ByteStr × Json))
    (hwf : ∀ kv ∈ fields, FieldWF kv) :
    (readResponse fields
        = .apiError (lastDescriptionFrom "" fields) (lastErrorCodeFrom 0 fields)
      ↔ (∀ kv ∈ fields, kv.1 ≠ resultKey) ∧ lastOkFrom false fields = false) ∧
    (∀ d c, readResponse fields = .apiError d c →
      d = lastDescriptionFrom "" fields ∧ c = lastErrorCodeFrom 0 fields) ∧
    (∀ pre v post, fields = pre ++ (resultKey, v) :: post →
      (∀ kv ∈ pre, kv.1 ≠ resultKey) →
      readResponse fields = .consumed (some (v, post))) := by
  have hres : ∀ pre v post, fields = pre ++ (resultKey, v) :: post →
      (∀ kv ∈ pre, kv.1 ≠ resultKey) →
      readResponse fields = .consumed (some (v, post)) := by
    intro pre v post heq hpre
    subst heq
    rw [readResponse]
    exact readResponseGo_result pre _ v post (fun x hx => hwf x (by simp [hx])) hpre
  have hnomaster : (∀ kv ∈ fields, kv.1 ≠ resultKey) →
      readResponse fields =
        if lastOkFrom false fields = true then ReadOutcome.consumed none
        else .apiError (lastDescriptionFrom "" fields) (lastErrorCodeFrom 0 fields) := by
    intro hnr
    rw [readResponse]
    exact readResponseGo_noResult fields ⟨false, "", 0⟩ hwf hnr
  refine ⟨⟨?_, ?_⟩, ?_, hres⟩
  · intro hapi
    by_cases hnr : ∀ kv ∈ fields, kv.1 ≠ resultKey
    · refine ⟨hnr, ?_⟩
      cases hok : lastOkFrom false fields
      · rfl
      · rw [hnomaster hnr, if_pos hok] at hapi
        exact absurd hapi (by simp)
    · obtain ⟨pre, v, post, heq, hpre⟩ := exists_first_result fields hnr
      rw [hres pre v post heq hpre] at hapi
      exact absurd hapi (by simp)
  · rintro ⟨hnr, hok⟩
    rw [hnomaster hnr, if_neg (by simp [hok])]
  · intro d c hapi
    by_cases hnr : ∀ kv ∈ fields, kv.1 ≠ resultKey
    · cases hok : lastOkFrom false fields
      · rw [hnomaster hnr, if_neg (by simp [hok])] at hapi
        injection hapi with hd hc
        exact ⟨hd.symm, hc.symm⟩
      · rw [hnomaster hnr, if_pos hok] at hapi
        exact absurd hapi (by simp)
    · obtain ⟨pre, v, post, heq, hpre⟩ := exists_first_result fields hnr
      rw [hres pre v post heq hpre] at hapi
      exact absurd hapi (by simp)

/-- Well-formed success envelope with ok before result. -/
def c3SuccessFields : List (ByteStr × Json) :=
  [(okKey, Json.bool true), (resultKey, Json.num 7)]

/-- Well-formed failure envelope without result. -/
def c3FailureFields : List (ByteStr × Json) :=
  [(okKey, Json.bool false), (descriptionKey, Json.str "nope"),
   (errorCodeKey, Json.num 400)]

/-- C3 witness: the amended envelope claim applied at a concrete success
envelope (cursor lands on result's value 7) and at a concrete failure
envelope (ApiError "nope"/400). -/
theorem c3_readResponse_amended_witness :
    (∀ kv ∈ c3SuccessFields, FieldWF kv) ∧
    readResponse c3SuccessFields = .consumed (some (Json.num 7, [])) ∧
    (∀ kv ∈ c3FailureFields, FieldWF kv) ∧
    readResponse c3FailureFields = .apiError "nope" 400 := by
  refine ⟨?_, ?_, ?_, ?_⟩
  · intro kv hkv
    simp only [c3SuccessFields, List.mem_cons, List.not_mem_nil, or_false] at hkv
    rcases hkv with rfl | rfl
    · exact Or.inl ⟨rfl, rfl⟩
    · exact Or.inr (Or.inr (Or.inr rfl))
  · exact (c3_readResponse_amended c3SuccessFields (by
      intro kv hkv
      simp only [c3SuccessFields, List.mem_cons, List.not_mem_nil, or_false] at hkv
      rcases hkv with rfl | rfl
      · exact Or.inl ⟨rfl, rfl⟩
      · exact Or.inr (Or.inr (Or.inr rfl)))).2.2
      [(okKey, Json.bool true)] (Json.num 7) [] rfl (by decide)
  · intro kv hkv
    simp only [c3FailureFields, List.mem_cons, List.not_mem_nil, or_false] at hkv
    rcases hkv with rfl | rfl | rfl
    · exact Or.inl ⟨rfl, rfl⟩
    · exact Or.inr (Or.inl ⟨rfl, rfl⟩)
    · exact Or.inr (Or.inr (Or.inl ⟨rfl, rfl⟩))
  · exact (c3_readResponse_amended c3FailureFields (by
      intro kv hkv
      simp only [c3FailureFields, List.mem_cons, List.not_mem_nil, or_false] at hkv
      rcases hkv with rfl | rfl | rfl
      · exact Or.inl ⟨rfl, rfl⟩
      · exact Or.inr (Or.inl ⟨rfl, rfl⟩)
      · exact Or.inr (Or.inr (Or.inl ⟨rfl, rfl⟩)))).1.mpr ⟨by decide, rfl⟩

/-! Updates-array reader (getUpdatesResponseConsumer, internal/api). -/

/-- One element of the result array: an object's field list. -/
abbrev UpdateElem := List (ByteStr × Json)

/-- Errors of the updates-array reader: the two protocol faults it
manufactures and the iterator fault. -/
inductive UpdatesErr where
  | firstFieldProtocol (key : ByteStr)
  | excessFieldProtocol (key : ByteStr)
  | iterFailed
  deriving DecidableEq, Repr

/-- The "update_id" key. -/
def updateIdKey : ByteStr := asciiBytes "update_id"

/-- getUpdatesResponseConsumer from internal/api (jsoniter version), over
the result array's elements (each an object's field list). acc accumulates
(in reverse) the (update_id, type) pairs the per-update consumer is invoked
with; the per-update consumer is modeled as succeeding and fully consuming
the payload. An element whose first key is not update_id (including an
empty object, where ReadObject yields the empty key) is the first-field
protocol error; a non-integer update_id is an iterator fault; an element
with only the update_id (Skip after the object has ended) is an iterator
fault; an unknown type key skips the element without invoking the consumer;
a third field is the excess-field protocol error. -/
def getUpdatesConsumerGo :
    List UpdateElem → List (Int × UpdateType) →
      List (Int × UpdateType) × Option UpdatesErr
  | [], acc => (acc.reverse, none)
  | elem :: rest, acc =>
    match elem with
    | [] => (acc.reverse, some (.firstFieldProtocol []))
    | (key, v) :: fs =>
      if key ≠ updateIdKey then (acc.reverse, some (.firstFieldProtocol key))
      else
        match v with
        | .num id =>
          match fs with
          | [] => (acc.reverse, some .iterFailed)
          | (key2, _) :: fs2 =>
            match parseUpdateType key2 with
            | some t =>
              match fs2 with
              | [] => getUpdatesConsumerGo rest ((id, t) :: acc)
              | (key3, _) :: _ => (((id, t) :: acc).reverse, some (.excessFieldProtocol key3))
            | none =>
              match fs2 with
              | [] => getUpdatesConsumerGo rest acc
              | (key3, _) :: _ => (acc.reverse, some (.excessFieldProtocol key3))
        | _ => (acc.reverse, some .iterFailed)

/-- Entry point: the consumer starts with nothing accumulated. -/
def getUpdatesConsumer (elems : List UpdateElem) :
    List (Int × UpdateType) × Option UpdatesErr :=
  getUpdatesConsumerGo elems []

/-- Shape of a decodable update element: exactly the update_id field with an
integer, then one payload field. -/
def ElemShape (e : UpdateElem) : Prop :=
  ∃ id key v, e = [(updateIdKey, Json.num id), (key, v)]

/-- The consumer invocation an element produces per the claim: its id with
its classified type when the type key is known, nothing otherwise. -/
def elemCall : UpdateElem → Option (Int × UpdateType)
  | [(_, Json.num id), (key, _)] => (parseUpdateType key).map fun t => (id, t)
  | _ => none

theorem getUpdatesConsumerGo_shapedStep (id : Int) (key : ByteStr) (v : Json)
    (es : List UpdateElem) (acc : List (Int × UpdateType)) :
    getUpdatesConsumerGo ([(updateIdKey, Json.num id), (key, v)] :: es) acc
      = match parseUpdateType key with
        | some t => getUpdatesConsumerGo es ((id, t) :: acc)
        | none => getUpdatesConsumerGo es acc := by
  rfl

theorem getUpdatesConsumerGo_good (elems : List UpdateElem) :
    ∀ acc : List (Int × UpdateType), (∀ e ∈ elems, ElemShape e) →
      getUpdatesConsumerGo elems acc
        = (acc.reverse ++ elems.filterMap elemCall, none) := by
  induction elems with
  | nil => intro acc _; simp [getUpdatesConsumerGo]
  | cons e es ih =>
    intro acc h
    obtain ⟨id, key, v, rfl⟩ := h e (List.mem_cons_self _ _)
    have hrest : ∀ x ∈ es, ElemShape x := fun x hx => h x (by simp [hx])
    rw [getUpdatesConsumerGo_shapedStep]
    cases hp : parseUpdateType key with
    | some t =>
      show getUpdatesConsumerGo es ((id, t) :: acc) = _
      rw [ih _ hrest]
      simp [List.filterMap_cons, elemCall, hp]
    | none =>
      show getUpdatesConsumerGo es acc = _
      rw [ih _ hrest]
      simp [List.filterMap_cons, elemCall, hp]

theorem getUpdatesConsumerGo_badFirst (pre : List UpdateElem) :
    ∀ (acc : List (Int × UpdateType)) (key : ByteStr) (v : Json)
      (fs : List (ByteStr × Json)) (rest : List UpdateElem),
      (∀ e ∈ pre, ElemShape e) → key ≠ updateIdKey →
      getUpdatesConsumerGo (pre ++ ((key, v) :: fs) :: rest) acc
        = (acc.reverse ++ pre.filterMap elemCall, some (.firstFieldProtocol key)) := by
  induction pre with
  | nil =>
    intro acc key v fs rest _ hk
    simp only [List.nil_append, getUpdatesConsumerGo]
    rw [if_pos hk]
    simp
  | cons e es ih =>
    intro acc key v fs rest h hk
    obtain ⟨id, key2, v2, rfl⟩ := h e (List.mem_cons_self _ _)
    have hrest : ∀ x ∈ es, ElemShape x := fun x hx => h x (by simp [hx])
    rw [List.cons_append, getUpdatesConsumerGo_shapedStep]
    cases hp : parseUpdateType key2 with
    | some t =>
      show getUpdatesConsumerGo (es ++ ((key, v) :: fs) :: rest) ((id, t) :: acc) = _
      rw [ih _ key v fs rest hrest hk]
      simp [List.filterMap_cons, elemCall, hp]
    | none =>
      show getUpdatesConsumerGo (es ++ ((key, v) :: fs) :: rest) acc = _
      rw [ih _ key v fs rest hrest hk]
      simp [List.filterMap_cons, elemCall, hp]

/-- The literal example input of the claim: four updates, two of unknown
type. -/
def c5ExampleInput : List UpdateElem :=
  [ [(updateIdKey, Json.num 1), (asciiBytes "unknown", Json.obj [])]
  , [(updateIdKey, Json.num 2),
     (asciiBytes "message", Json.obj [(asciiBytes "text", Json.str "t")])]
  , [(updateIdKey, Json.num 3), (asciiBytes "unk", Json.num 1)]
  , [(updateIdKey, Json.num 4),
     (asciiBytes "poll", Json.obj [(asciiBytes "id", Json.str "p")])]
  ]

/-- C5: over arrays of well-shaped elements the per-update consumer is
invoked exactly once per element with a known type key, in array order,
with that element's id and type, and unknown-type elements are skipped; an
element whose first key is not update_id stops processing with the
first-field protocol error; and on the claim's literal input the consumer
is invoked exactly twice, with (2, message) and (4, poll). -/
theorem c5_getUpdates_consumer :
    (∀ elems : List UpdateElem, (∀ e ∈ elems, ElemShape e) →
      getUpdatesConsumer elems = (elems.filterMap elemCall, none)) ∧
    (∀ (pre : List UpdateElem) (key : ByteStr) (v : Json)
        (fs : List (ByteStr × Json)) (rest : List UpdateElem),
      (∀ e ∈ pre, ElemShape e) → key ≠ updateIdKey →
      getUpdatesConsumer (pre ++ ((key, v) :: fs) :: rest)
        = (pre.filterMap elemCall, some (.firstFieldProtocol key))) ∧
    getUpdatesConsumer c5ExampleInput
      = ([(2, UpdateType.message), (4, UpdateType.poll)], none) := by
  refine ⟨?_, ?_, by decide⟩
  · intro elems h
    rw [getUpdatesConsumer, getUpdatesConsumerGo_good elems [] h]
    rfl
  · intro pre key v fs rest h hk
    rw [getUpdatesConsumer, getUpdatesConsumerGo_badFirst pre [] key v fs rest h hk]
    rfl

/-- C5 witness: the general well-shaped statement applied at the literal
example input. -/
theorem c5_getUpdates_consumer_witness :
    (∀ e ∈ c5ExampleInput, ElemShape e) ∧
    getUpdatesConsumer c5ExampleInput = (c5ExampleInput.filterMap elemCall, none) := by
  have hshape : ∀ e ∈ c5ExampleInput, ElemShape e := by
    intro e he
    simp only [c5ExampleInput, List.mem_cons, List.not_mem_nil, or_false] at he
    rcases he with rfl | rfl | rfl | rfl
    · exact ⟨1, _, _, rfl⟩
    · exact ⟨2, _, _, rfl⟩
    · exact ⟨3, _, _, rfl⟩
    · exact ⟨4, _, _, rfl⟩
  exact ⟨hshape, c5_getUpdates_consumer.1 c5ExampleInput hshape⟩

end Telexy
